import Mathlib

/-!
# Verification of the `pick_list` widget (iced, `src/native/src/widget/pick_list.rs`)

A shallow embedding of the pick-list dropdown widget: its persistent state,
the per-frame view configuration, the event state machine (`on_event`), the
shrink-to-fit layout sizer (`layout`) and the layout-cache fingerprint
(`hash_layout`).  Scalars that are `f32` in the source are modelled as `ℚ`;
`u16`/`u32`/`usize` are modelled as `Nat`.  The renderer is modelled as an
abstract measurement capability, and the external layout-limits resolver as an
abstract function.
-/

namespace PickList

/-- A 2-D point (`iced` `Point`, `f32` coordinates modelled as `ℚ`). -/
structure Point where
  x : ℚ
  y : ℚ

/-- A 2-D size (`iced` `Size<f32>` modelled over `ℚ`). -/
structure Size where
  width : ℚ
  height : ℚ
deriving DecidableEq

/-- An axis-aligned rectangle (`iced` `Rectangle<f32>`). -/
structure Rectangle where
  x : ℚ
  y : ℚ
  width : ℚ
  height : ℚ

/-- Modelled from the spec: the point-in-bounds test used for
"press inside widget bounds" (`Rectangle::contains` lives outside this
repository's source tree; the spec only requires a point-in-box test). -/
def Rectangle.contains (b : Rectangle) (p : Point) : Bool :=
  decide (b.x ≤ p.x) && decide (p.x ≤ b.x + b.width) &&
    decide (b.y ≤ p.y) && decide (p.y ≤ b.y + b.height)

/-- `iced` `mouse::Button`. -/
inductive Button
  | left
  | right
  | middle
  | other (code : Nat)
deriving DecidableEq

/-- `iced` `mouse::Event` (the variants relevant to event dispatch). -/
inductive MouseEvent
  | buttonPressed (b : Button)
  | buttonReleased (b : Button)
  | cursorMoved (x y : ℚ)
  | cursorEntered
  | cursorLeft
  | wheelScrolled
deriving DecidableEq

/-- `iced` `Event`: the widget only inspects the mouse variant. -/
inductive Event
  | mouse (m : MouseEvent)
  | keyboard
  | window
  | touch
deriving DecidableEq

/-- `iced` `Length`: the width policy of the widget. -/
inductive Length
  | fill
  | fillPortion (factor : Nat)
  | shrink
  | units (n : Nat)
deriving DecidableEq

/-- Modelled from the spec: the overlay menu's own substate
(`overlay::menu::State` lives outside this repository's source tree; the
widget's event handler never touches it, so only its identity matters). -/
structure MenuState where
  scroll : Nat
deriving DecidableEq

/-- A font handle (`Renderer::Font`); only its `Default` element matters to
the layout algorithm. -/
structure Font where
  id : Nat
deriving DecidableEq

/-- `Renderer::Font::default()`. -/
def Font.default : Font := ⟨0⟩

/-- The persistent widget state `State<T>`: the four fields that survive
across frames and that the per-frame `PickList` view borrows. -/
structure State (T : Type) where
  menu : MenuState
  is_open : Bool
  hovered_option : Option Nat
  last_selection : Option T

/-- The per-frame view configuration: the fields of `PickList<'a, T, Message,
Renderer>` that the event/layout/hash logic reads (the borrowed state fields
are passed separately as a `State`). -/
structure View (T Message : Type) where
  on_selected : T → Message
  options : List T
  selected : Option T
  width : Length
  padding : Nat
  text_size : Option Nat
  font : Font
  style : Nat

/-- The renderer capability: default text size, default padding, and the text
measurement function `(label, text_size, font) → width` (the source also
receives a height which `layout` discards, and an unbounded available size). -/
structure Renderer where
  default_size : Nat
  default_padding : Nat
  measure : String → Nat → Font → ℚ

/-- `Iterator::position`: index of the first element satisfying `p`. -/
def position {α : Type} (p : α → Bool) : List α → Option Nat
  | [] => none
  | a :: l => if p a then some 0 else (position p l).map (· + 1)

/-- The event state machine `Widget::on_event`.  Returns the updated state
and the list of messages pushed onto the `messages` sink during this
dispatch.  Mirrors the source: only a left-button press is inspected; while
open, `is_open` is set to whether the cursor is at the negative "unavailable"
sentinel; while closed, a press inside the bounds opens and seeds
`hovered_option` from the position of `selected` in `options`; finally the
`last_selection` mailbox is drained (`Option::take`), emitting
`on_selected(value)` and forcing `is_open := false`. -/
def on_event {T Message : Type} [DecidableEq T] (v : View T Message)
    (st : State T) (event : Event) (bounds : Rectangle) (cursor : Point) :
    State T × List Message :=
  match event with
  | .mouse (.buttonPressed .left) =>
    let st1 : State T :=
      if st.is_open then
        { st with is_open := decide (cursor.x < 0) || decide (cursor.y < 0) }
      else if bounds.contains cursor then
        { st with
            is_open := true
            hovered_option :=
              position (fun o => decide (some o = v.selected)) v.options }
      else
        st
    match st1.last_selection with
    | some x =>
      ({ st1 with last_selection := none, is_open := false },
        [v.on_selected x])
    | none => (st1, [])
  | _ => (st, [])

/-- The effective text size: the view's override or the renderer default. -/
def effective_text_size {T M : Type} (r : Renderer) (v : View T M) : Nat :=
  v.text_size.getD r.default_size

/-- `width.round() as u32`: round an `f32` width (half away from zero, which
agrees with `round` on the nonnegative widths a renderer produces) and clamp
the negative case to `0` as the saturating `as u32` cast does. -/
def roundWidth (q : ℚ) : Nat := (round q).toNat

/-- `Iterator::max` over a list of `u32` widths: `none` on an empty list. -/
def listMax : List Nat → Option Nat
  | [] => none
  | x :: xs =>
    match listMax xs with
    | none => some x
    | some m => some (max x m)

/-- The measured, rounded width of one option's stringified label, at the
effective text size and — as in the source — the renderer's *default* font. -/
def optionWidth {T M : Type} (r : Renderer) (toStr : T → String)
    (v : View T M) (o : T) : Nat :=
  roundWidth (r.measure (toStr o) (effective_text_size r v) Font.default)

/-- The `max_width` computation of `Widget::layout`: under `Shrink`, the
maximum rounded measured label width with fallback `100` on an empty option
list; under any other width policy, `0` (no label is measured). -/
def max_width {T M : Type} (r : Renderer) (toStr : T → String)
    (v : View T M) : Nat :=
  match v.width with
  | .shrink => (listMax (v.options.map (optionWidth r toStr v))).getD 100
  | _ => 0

/-- The intrinsic size built by `Widget::layout` before limits resolution and
padding: width `max_width + text_size + padding`, height `text_size`. -/
def intrinsic_size {T M : Type} (r : Renderer) (toStr : T → String)
    (v : View T M) : Size :=
  ⟨(max_width r toStr v : ℚ) + (effective_text_size r v : ℚ)
      + (v.padding : ℚ),
    (effective_text_size r v : ℚ)⟩

/-- Modelled from the spec: symmetric padding of a size (`Size::pad` lives
outside this repository's source tree). -/
def Size.padded (s : Size) (p : ℚ) : Size :=
  ⟨s.width + 2 * p, s.height + 2 * p⟩

/-- The full `Widget::layout` node size: the intrinsic size resolved by the
external limits resolver (abstract, given the width policy and padding that
shape the limits) and padded symmetrically. -/
def layout {T M : Type} (r : Renderer) (resolve : Length → ℚ → Size → Size)
    (toStr : T → String) (v : View T M) : Size :=
  Size.padded (resolve v.width (v.padding : ℚ) (intrinsic_size r toStr v))
    (v.padding : ℚ)

/-- One datum fed to the layout hasher. -/
inductive HashItem
  | label (s : String)
  | width (w : Length)
deriving DecidableEq

/-- `Widget::hash_layout`, modelled as the exact sequence of data fed to the
hasher: under `Shrink` every stringified option label in order; otherwise
only the width policy value. -/
def hash_layout {T M : Type} (toStr : T → String) (v : View T M) :
    List HashItem :=
  match v.width with
  | .shrink => (v.options.map toStr).map HashItem.label
  | w => [HashItem.width w]

/-- The label relation of the monotone-sizing property: `a` occurs inside `b`
and is no longer than `b`. -/
def SubstringLe (a b : String) : Prop :=
  (∃ l r : String, b = l ++ a ++ r) ∧ a.length ≤ b.length

/-! ## Concrete fixtures for witnesses and counterexamples -/

/-- The stringification of `Nat` options. -/
def natStr : Nat → String := fun n => toString n

/-- A concrete menu substate. -/
def menu0 : MenuState := ⟨0⟩

/-- A concrete widget bounds box. -/
def bounds0 : Rectangle := ⟨0, 0, 10, 10⟩

/-- A cursor inside `bounds0`. -/
def cursorIn : Point := ⟨2, 2⟩

/-- A cursor outside `bounds0`. -/
def cursorOut : Point := ⟨20, 20⟩

/-- The negative off-screen sentinel cursor. -/
def cursorSentinel : Point := ⟨-1, -1⟩

/-- A left-mouse-button press. -/
def pressE : Event := Event.mouse (MouseEvent.buttonPressed Button.left)

/-- A concrete view: options `[7, 5, 9]`, selected `5`, shrink width. -/
def viewNat : View Nat Nat where
  on_selected := fun n => n + 1000
  options := [7, 5, 9]
  selected := some 5
  width := Length.shrink
  padding := 4
  text_size := some 20
  font := ⟨0⟩
  style := 0

/-- Closed state, empty mailbox. -/
def stClosedEmpty : State Nat := ⟨menu0, false, none, none⟩

/-- Closed state, mailbox holding `5`. -/
def stClosedMail : State Nat := ⟨menu0, false, some 2, some 5⟩

/-- Open state, empty mailbox. -/
def stOpenEmpty : State Nat := ⟨menu0, true, some 1, none⟩

/-- A renderer that measures a label as its character count. -/
def rLen : Renderer := ⟨20, 4, fun s _ _ => (s.length : ℚ)⟩

/-- A shrink view with options `[0, 15]` (labels of widths 1 and 2). -/
def viewShrink : View Nat Nat := { viewNat with options := [0, 15] }

/-- A shrink view agreeing with `viewNat` on the options only. -/
def viewShrinkB : View Nat Nat :=
  { viewNat with
      selected := none
      padding := 9
      text_size := none
      style := 3 }

/-- A fixed-width view. -/
def viewFixedA : View Nat Nat := { viewNat with width := Length.units 30 }

/-- A fixed-width view of the same width, all other fields differing. -/
def viewFixedB : View Nat Nat :=
  { viewNat with
      width := Length.units 30
      options := [1, 2]
      selected := none
      padding := 9
      style := 3 }

/-- Shrink view over `String` options, short labels. -/
def viewA9 : View String Nat where
  on_selected := fun _ => 0
  options := ["a", "bb"]
  selected := none
  width := Length.shrink
  padding := 4
  text_size := some 20
  font := ⟨0⟩
  style := 0

/-- Shrink view over `String` options, each label extends the corresponding
label of `viewA9`. -/
def viewB9 : View String Nat := { viewA9 with options := ["xay", "bbb"] }

/-! ## Helper lemmas -/

theorem position_eq_some_of {α : Type} {p : α → Bool} {l : List α} {i : Nat}
    {a : α} (hget : l.get? i = some a) (hpa : p a = true)
    (hprev : ∀ j, j < i → ∀ b, l.get? j = some b → p b = false) :
    position p l = some i := by
  induction l generalizing i with
  | nil => simp at hget
  | cons x xs ih =>
    cases i with
    | zero =>
      simp only [List.get?] at hget
      injection hget with h
      subst h
      simp [position, hpa]
    | succ n =>
      have hx : p x = false := hprev 0 (Nat.succ_pos n) x rfl
      have hrec : position p xs = some n :=
        ih hget (fun j hj b hb => hprev (j + 1) (Nat.succ_lt_succ hj) b hb)
      simp [position, hx, hrec]

theorem position_eq_none_of {α : Type} {p : α → Bool} {l : List α}
    (h : ∀ a, a ∈ l → p a = false) : position p l = none := by
  induction l with
  | nil => rfl
  | cons x xs ih =>
    have hx : p x = false := h x (List.mem_cons_self x xs)
    have hxs : position p xs = none :=
      ih (fun a ha => h a (List.mem_cons_of_mem x ha))
    simp [position, hx, hxs]

theorem listMax_eq_none_iff {l : List Nat} : listMax l = none ↔ l = [] := by
  cases l with
  | nil => simp [listMax]
  | cons x xs =>
    simp only [listMax]
    cases listMax xs <;> simp

theorem listMax_spec {l : List Nat} (h : l ≠ []) :
    ∃ m, listMax l = some m ∧ m ∈ l ∧ ∀ x, x ∈ l → x ≤ m := by
  induction l with
  | nil => exact absurd rfl h
  | cons a xs ih =>
    by_cases hxs : xs = []
    · subst hxs
      refine ⟨a, rfl, List.mem_cons_self a [], ?_⟩
      intro x hx
      rw [List.mem_singleton.mp hx]
    · obtain ⟨m, hm, hmem, hmax⟩ := ih hxs
      refine ⟨max a m, ?_, ?_, ?_⟩
      · simp [listMax, hm]
      · rcases le_total a m with hh | hh
        · rw [max_eq_right hh]
          exact List.mem_cons_of_mem a hmem
        · rw [max_eq_left hh]
          exact List.mem_cons_self a xs
      · intro x hx
        rcases List.mem_cons.mp hx with h1 | h1
        · exact h1 ▸ le_max_left a m
        · exact le_trans (hmax x h1) (le_max_right a m)

theorem listMax_le_of_forall₂ {l1 l2 : List Nat}
    (h : List.Forall₂ (· ≤ ·) l1 l2) {m1 : Nat} (hm1 : listMax l1 = some m1) :
    ∃ m2, listMax l2 = some m2 ∧ m1 ≤ m2 := by
  induction h generalizing m1 with
  | nil => simp [listMax] at hm1
  | @cons a b xs ys hab htail ih =>
    cases hxs : listMax xs with
    | none =>
      have hys : ys = [] := by
        have : xs = [] := listMax_eq_none_iff.mp hxs
        subst this
        exact (List.forall₂_nil_left_iff.mp htail)
      subst hys
      simp only [listMax, hxs] at hm1
      injection hm1 with hm1
      subst hm1
      exact ⟨b, by simp [listMax], hab⟩
    | some m =>
      obtain ⟨m2, hm2, hle⟩ := ih hxs
      simp only [listMax, hxs] at hm1
      injection hm1 with hm1
      subst hm1
      refine ⟨max b m2, by simp [listMax, hm2], max_le_max hab hle⟩

theorem listMax_getD_le_of_forall₂ {l1 l2 : List Nat}
    (h : List.Forall₂ (· ≤ ·) l1 l2) :
    (listMax l1).getD 100 ≤ (listMax l2).getD 100 := by
  cases hm1 : listMax l1 with
  | none =>
    have : l1 = [] := listMax_eq_none_iff.mp hm1
    subst this
    have : l2 = [] := List.forall₂_nil_left_iff.mp h
    subst this
    simp [listMax]
  | some m1 =>
    obtain ⟨m2, hm2, hle⟩ := listMax_le_of_forall₂ h hm1
    rw [hm2]
    exact hle

theorem roundWidth_mono {a b : ℚ} (h : a ≤ b) :
    roundWidth a ≤ roundWidth b := by
  unfold roundWidth
  refine Int.toNat_le_toNat ?_
  rw [round_eq, round_eq]
  exact Int.floor_mono (by linarith)

theorem forall₂_le_map {γ δ : Type} {R : γ → δ → Prop}
    {l1 : List γ} {l2 : List δ} (h : List.Forall₂ R l1 l2)
    (f : γ → Nat) (g : δ → Nat) (hfg : ∀ a b, R a b → f a ≤ g b) :
    List.Forall₂ (· ≤ ·) (l1.map f) (l2.map g) := by
  induction h with
  | nil => exact List.Forall₂.nil
  | cons hab _ ih => exact List.Forall₂.cons (hfg _ _ hab) ih

/-! ## Claims -/

/-- C1 (amended): for every **left-mouse-button-press** dispatch, regardless
of the open/close outcome, if the mailbox `last_selection` holds `some x`
before the dispatch, then afterwards it is `none`, `is_open = false`, and
exactly one message equal to `on_selected x` was emitted.  (The claim's
"regardless of the event kind" fails: the source drains the mailbox only
inside the left-press match arm.) -/
theorem press_commits_pending {T M : Type} [DecidableEq T] (v : View T M)
    (st : State T) (bounds : Rectangle) (cursor : Point) (x : T)
    (h : st.last_selection = some x) :
    (on_event v st (Event.mouse (MouseEvent.buttonPressed Button.left))
        bounds cursor).1.last_selection = none ∧
    (on_event v st (Event.mouse (MouseEvent.buttonPressed Button.left))
        bounds cursor).1.is_open = false ∧
    (on_event v st (Event.mouse (MouseEvent.buttonPressed Button.left))
        bounds cursor).2 = [v.on_selected x] := by
  simp only [on_event]
  cases hopen : st.is_open <;> cases hin : bounds.contains cursor <;>
    simp [hopen, hin, h]

/-- C1 witness: the amended commit rule at a concrete closed state with a
pending selection. -/
theorem press_commits_pending_witness :
    (on_event viewNat stClosedMail
        (Event.mouse (MouseEvent.buttonPressed Button.left))
        bounds0 cursorIn).1.last_selection = none ∧
    (on_event viewNat stClosedMail
        (Event.mouse (MouseEvent.buttonPressed Button.left))
        bounds0 cursorIn).1.is_open = false ∧
    (on_event viewNat stClosedMail
        (Event.mouse (MouseEvent.buttonPressed Button.left))
        bounds0 cursorIn).2 = [viewNat.on_selected 5] :=
  press_commits_pending viewNat stClosedMail bounds0 cursorIn 5 rfl

/-- C1 counterexample: a keyboard dispatch with a pending selection leaves
the mailbox full and emits nothing, refuting "every event dispatch,
regardless of the event kind". -/
theorem keyboard_dispatch_ignores_pending :
    ¬ ((on_event viewNat stClosedMail Event.keyboard bounds0
          cursorIn).1.last_selection = none ∧
        (on_event viewNat stClosedMail Event.keyboard bounds0
          cursorIn).1.is_open = false ∧
        (on_event viewNat stClosedMail Event.keyboard bounds0
          cursorIn).2 = [viewNat.on_selected 5]) := by
  intro h
  exact Option.noConfusion h.1

/-- C2 (amended): while open, a left press at the negative off-screen
sentinel keeps the widget **Open** (`is_open` is set to exactly "the cursor
has a negative coordinate"), and a press at any cursor with nonnegative
coordinates closes it; with an empty mailbox no message is emitted and no
other field changes.  (The claim has the two outcomes inverted.) -/
theorem open_press_closes_unless_sentinel {T M : Type} [DecidableEq T]
    (v : View T M) (st : State T) (bounds : Rectangle) (cursor : Point)
    (hopen : st.is_open = true) (hmail : st.last_selection = none) :
    on_event v st (Event.mouse (MouseEvent.buttonPressed Button.left))
        bounds cursor
      = ({ st with
            is_open := decide (cursor.x < 0) || decide (cursor.y < 0) },
          []) := by
  simp only [on_event, hopen]
  simp [hmail]

/-- C2 witness: a concrete open state pressed at an in-bounds, nonnegative
cursor ends up closed with no message. -/
theorem open_press_closes_witness :
    on_event viewNat stOpenEmpty
        (Event.mouse (MouseEvent.buttonPressed Button.left))
        bounds0 cursorIn
      = ({ stOpenEmpty with
            is_open :=
              decide (cursorIn.x < 0) || decide (cursorIn.y < 0) },
          []) :=
  open_press_closes_unless_sentinel viewNat stOpenEmpty bounds0 cursorIn
    rfl rfl

/-- C2 counterexample: a left press at the sentinel `(-1, -1)` while open
leaves `is_open = true`, refuting the claimed transition to Closed. -/
theorem open_sentinel_press_stays_open :
    (on_event viewNat stOpenEmpty
        (Event.mouse (MouseEvent.buttonPressed Button.left))
        bounds0 cursorSentinel).1.is_open = true := by
  norm_num [on_event, stOpenEmpty, cursorSentinel]

/-- C3: while closed, a left press inside the bounds opens the widget and
seeds `hovered_option`: if `selected = some x` and `x` first occurs at index
`i` of the option list, `hovered_option` becomes `some i`; if there is no
selection, or the selected value is absent from the options,
`hovered_option` becomes `none`.  With an empty mailbox `is_open` ends
`true` (a pending selection may override it to `false`). -/
theorem closed_press_inside_opens_and_seeds {T M : Type} [DecidableEq T]
    (v : View T M) (st : State T) (bounds : Rectangle) (cursor : Point)
    (hclosed : st.is_open = false)
    (hin : bounds.contains cursor = true) :
    (∀ x i, v.selected = some x → v.options.get? i = some x →
      (∀ j, j < i → v.options.get? j ≠ some x) →
      (on_event v st (Event.mouse (MouseEvent.buttonPressed Button.left))
          bounds cursor).1.hovered_option = some i) ∧
    (v.selected = none →
      (on_event v st (Event.mouse (MouseEvent.buttonPressed Button.left))
          bounds cursor).1.hovered_option = none) ∧
    (∀ x, v.selected = some x → x ∉ v.options →
      (on_event v st (Event.mouse (MouseEvent.buttonPressed Button.left))
          bounds cursor).1.hovered_option = none) ∧
    (st.last_selection = none →
      (on_event v st (Event.mouse (MouseEvent.buttonPressed Button.left))
          bounds cursor).1.is_open = true) := by
  have hov : (on_event v st
      (Event.mouse (MouseEvent.buttonPressed Button.left)) bounds
      cursor).1.hovered_option
      = position (fun o => decide (some o = v.selected)) v.options := by
    simp only [on_event, hclosed, hin]
    cases hls : st.last_selection <;> simp [hls]
  refine ⟨?_, ?_, ?_, ?_⟩
  · intro x i hsel hget hprev
    rw [hov]
    refine position_eq_some_of hget (by simp [hsel]) ?_
    intro j hj b hb
    have hbx : ¬ some b = some x := fun hc => hprev j hj (hc ▸ hb)
    simp [hsel]
    exact fun hc => hbx (by rw [hc])
  · intro hsel
    rw [hov]
    refine position_eq_none_of ?_
    intro a _
    simp [hsel]
  · intro x hsel hmem
    rw [hov]
    refine position_eq_none_of ?_
    intro a ha
    have : ¬ a = x := fun hc => hmem (hc ▸ ha)
    simp [hsel]
    exact this
  · intro hls
    simp only [on_event, hclosed, hin]
    simp [hls]

/-- C3 witness: the scenario state, options `[7, 5, 9]` with `5` selected at
index 1: opening seeds `hovered_option = some 1` and ends open. -/
theorem closed_press_inside_opens_witness :
    (on_event viewNat stClosedEmpty
        (Event.mouse (MouseEvent.buttonPressed Button.left))
        bounds0 cursorIn).1.hovered_option = some 1 ∧
    (on_event viewNat stClosedEmpty
        (Event.mouse (MouseEvent.buttonPressed Button.left))
        bounds0 cursorIn).1.is_open = true := by
  have h := closed_press_inside_opens_and_seeds viewNat stClosedEmpty
    bounds0 cursorIn rfl
    (by norm_num [Rectangle.contains, bounds0, cursorIn])
  refine ⟨h.1 5 1 rfl rfl ?_, h.2.2.2 rfl⟩
  intro j hj
  have hj0 : j = 0 := by omega
  subst hj0
  simp [viewNat]

/-- C4: any event other than a left-mouse-button press leaves the whole
state (including `is_open`, `hovered_option`, `last_selection` and the menu
substate) unchanged and emits no message. -/
theorem non_left_press_noop {T M : Type} [DecidableEq T] (v : View T M)
    (st : State T) (bounds : Rectangle) (cursor : Point) (event : Event)
    (h : event ≠ Event.mouse (MouseEvent.buttonPressed Button.left)) :
    on_event v st event bounds cursor = (st, []) := by
  cases event with
  | mouse m =>
    cases m with
    | buttonPressed b =>
      cases b with
      | left => exact absurd rfl h
      | right => rfl
      | middle => rfl
      | other code => rfl
    | buttonReleased b => rfl
    | cursorMoved a b => rfl
    | cursorEntered => rfl
    | cursorLeft => rfl
    | wheelScrolled => rfl
  | keyboard => rfl
  | window => rfl
  | touch => rfl

/-- C4 witness: a keyboard dispatch on a concrete open state is a no-op. -/
theorem non_left_press_noop_witness :
    on_event viewNat stOpenEmpty Event.keyboard bounds0 cursorIn
      = (stOpenEmpty, []) :=
  non_left_press_noop viewNat stOpenEmpty bounds0 cursorIn Event.keyboard
    (by decide)

/-- C5: a single call to the event dispatch appends zero or one message,
never more, for any event, starting state and mailbox content. -/
theorem at_most_one_message {T M : Type} [DecidableEq T] (v : View T M)
    (st : State T) (event : Event) (bounds : Rectangle) (cursor : Point) :
    (on_event v st event bounds cursor).2.length ≤ 1 := by
  unfold on_event
  split
  · cases hls : st.last_selection <;> cases hopen : st.is_open <;>
      cases hin : bounds.contains cursor <;> simp [hls, hopen, hin]
  · simp

/-- C8 (amended): a left press outside the bounds while closed never mutates
`hovered_option` or the menu substate; when the mailbox is empty the whole
dispatch is a no-op (state unchanged, no message).  (The claim's "including
states where pending_selection holds a value" fails: the deferred-commit
drain clears a pending value on every left press.) -/
theorem closed_outside_press_noop {T M : Type} [DecidableEq T]
    (v : View T M) (st : State T) (bounds : Rectangle) (cursor : Point)
    (hclosed : st.is_open = false)
    (hout : bounds.contains cursor = false) :
    (on_event v st (Event.mouse (MouseEvent.buttonPressed Button.left))
        bounds cursor).1.hovered_option = st.hovered_option ∧
    (on_event v st (Event.mouse (MouseEvent.buttonPressed Button.left))
        bounds cursor).1.menu = st.menu ∧
    (st.last_selection = none →
      on_event v st (Event.mouse (MouseEvent.buttonPressed Button.left))
          bounds cursor = (st, [])) := by
  simp only [on_event, hclosed, hout]
  cases hls : st.last_selection <;> simp [hls]

/-- C8 witness: a concrete closed state with an empty mailbox, pressed
outside the bounds, is left entirely unchanged. -/
theorem closed_outside_press_noop_witness :
    (on_event viewNat stClosedEmpty
        (Event.mouse (MouseEvent.buttonPressed Button.left))
        bounds0 cursorOut).1.hovered_option = stClosedEmpty.hovered_option ∧
    (on_event viewNat stClosedEmpty
        (Event.mouse (MouseEvent.buttonPressed Button.left))
        bounds0 cursorOut).1.menu = stClosedEmpty.menu ∧
    (stClosedEmpty.last_selection = none →
      on_event viewNat stClosedEmpty
          (Event.mouse (MouseEvent.buttonPressed Button.left))
          bounds0 cursorOut = (stClosedEmpty, [])) :=
  closed_outside_press_noop viewNat stClosedEmpty bounds0 cursorOut rfl
    (by norm_num [Rectangle.contains, bounds0, cursorOut])

/-- C8 counterexample: with a pending selection, a left press outside the
bounds while closed *does* mutate `last_selection` (it is drained to
`none`), refuting the claim for non-empty mailboxes. -/
theorem closed_outside_press_drains_pending :
    stClosedMail.last_selection = some 5 ∧
    (on_event viewNat stClosedMail
        (Event.mouse (MouseEvent.buttonPressed Button.left))
        bounds0 cursorOut).1.last_selection = none := by
  refine ⟨rfl, ?_⟩
  norm_num [on_event, stClosedMail, Rectangle.contains, bounds0, cursorOut]

/-- C6: under `Shrink` the intrinsic size has width "maximum over all
options of the rounded measured width of the stringified label at the
effective text size, plus one text-size unit, plus padding" (fallback `100`
for an empty option list) and height exactly the effective text size; under
`Fixed`/`Fill` no label is measured (the result is independent of the
measurement function and the options). -/
theorem layout_shrink_intrinsic {T M : Type} (r : Renderer)
    (toStr : T → String) (v : View T M) :
    (intrinsic_size r toStr v).height = (effective_text_size r v : ℚ) ∧
    (v.width = Length.shrink → v.options = [] →
      (intrinsic_size r toStr v).width
        = (100 : ℚ) + (effective_text_size r v : ℚ) + (v.padding : ℚ)) ∧
    (v.width = Length.shrink → v.options ≠ [] →
      ∃ o, o ∈ v.options ∧
        (intrinsic_size r toStr v).width
          = (optionWidth r toStr v o : ℚ) + (effective_text_size r v : ℚ)
            + (v.padding : ℚ) ∧
        ∀ p1, p1 ∈ v.options →
          optionWidth r toStr v p1 ≤ optionWidth r toStr v o) ∧
    (v.width ≠ Length.shrink →
      ∀ (m : String → Nat → Font → ℚ) (opts : List T),
        intrinsic_size { r with measure := m } toStr
            { v with options := opts }
          = intrinsic_size r toStr v) := by
  refine ⟨rfl, ?_, ?_, ?_⟩
  · intro hw hemp
    simp [intrinsic_size, max_width, hw, hemp, listMax]
  · intro hw hne
    have hmapne : v.options.map (optionWidth r toStr v) ≠ [] := by
      simpa using hne
    obtain ⟨m, hm, hmem, hmax⟩ := listMax_spec hmapne
    obtain ⟨o, ho, hOm⟩ := List.mem_map.mp hmem
    refine ⟨o, ho, ?_, ?_⟩
    · simp [intrinsic_size, max_width, hw, hm, hOm]
    · intro p1 hp1
      rw [hOm]
      exact hmax _ (List.mem_map_of_mem _ hp1)
  · intro hw m opts
    cases hvw : v.width <;>
      simp_all [intrinsic_size, max_width, effective_text_size]

/-- C6 witness: the length-measuring renderer on options `[0, 15]`
(labels of widths 1 and 2). -/
theorem layout_shrink_intrinsic_witness :
    (intrinsic_size rLen natStr viewShrink).height
      = (effective_text_size rLen viewShrink : ℚ) ∧
    (∃ o, o ∈ viewShrink.options ∧
      (intrinsic_size rLen natStr viewShrink).width
        = (optionWidth rLen natStr viewShrink o : ℚ)
          + (effective_text_size rLen viewShrink : ℚ)
          + (viewShrink.padding : ℚ) ∧
      ∀ p1, p1 ∈ viewShrink.options →
        optionWidth rLen natStr viewShrink p1
          ≤ optionWidth rLen natStr viewShrink o) := by
  have h := layout_shrink_intrinsic rLen natStr viewShrink
  exact ⟨h.1, h.2.2.1 rfl (by decide)⟩

/-- C7: under `Shrink`, two configurations whose option lists stringify
identically in the same order feed the hasher identically, whatever their
other fields (even their option/message types); under any other width
policy the fingerprint depends only on the width policy value. -/
theorem hash_stability :
    (∀ (T1 M1 T2 M2 : Type) (s1 : T1 → String) (s2 : T2 → String)
        (v1 : View T1 M1) (v2 : View T2 M2),
      v1.width = Length.shrink → v2.width = Length.shrink →
      v1.options.map s1 = v2.options.map s2 →
      hash_layout s1 v1 = hash_layout s2 v2) ∧
    (∀ (T1 M1 T2 M2 : Type) (s1 : T1 → String) (s2 : T2 → String)
        (v1 : View T1 M1) (v2 : View T2 M2),
      v1.width = v2.width → v1.width ≠ Length.shrink →
      hash_layout s1 v1 = hash_layout s2 v2) := by
  constructor
  · intro T1 M1 T2 M2 s1 s2 v1 v2 h1 h2 hopts
    simp [hash_layout, h1, h2, hopts]
  · intro T1 M1 T2 M2 s1 s2 v1 v2 heq hne
    cases hvw : v1.width <;> simp_all [hash_layout]

/-- C7 witness: `viewNat` vs `viewShrinkB` (same labels, different selected
value, padding, text size, style) share a fingerprint; `viewFixedA` vs
`viewFixedB` (same fixed width, everything else different) share one too. -/
theorem hash_stability_witness :
    hash_layout natStr viewNat = hash_layout natStr viewShrinkB ∧
    hash_layout natStr viewFixedA = hash_layout natStr viewFixedB :=
  ⟨hash_stability.1 Nat Nat Nat Nat natStr natStr viewNat viewShrinkB
      rfl rfl rfl,
    hash_stability.2 Nat Nat Nat Nat natStr natStr viewFixedA viewFixedB
      rfl (by decide)⟩

/-- C9: under `Shrink`, if the measurement function is monotone with
respect to "is a substring of and no longer than", then option lists
related pointwise by that relation produce a smaller-or-equal computed
width. -/
theorem shrink_monotone {T M : Type} (r : Renderer) (toStr : T → String)
    (vA vB : View T M)
    (hAw : vA.width = Length.shrink) (hBw : vB.width = Length.shrink)
    (hts : vA.text_size = vB.text_size) (hpad : vA.padding = vB.padding)
    (hmono : ∀ a b : String, SubstringLe a b →
      r.measure a (effective_text_size r vA) Font.default
        ≤ r.measure b (effective_text_size r vA) Font.default)
    (hsub : List.Forall₂ SubstringLe (vA.options.map toStr)
      (vB.options.map toStr)) :
    (intrinsic_size r toStr vA).width
      ≤ (intrinsic_size r toStr vB).width := by
  have hts' : effective_text_size r vB = effective_text_size r vA := by
    simp [effective_text_size, hts]
  have hf2 : List.Forall₂ (· ≤ ·)
      (vA.options.map (optionWidth r toStr vA))
      (vB.options.map (optionWidth r toStr vB)) := by
    have hf := forall₂_le_map hsub
      (fun s =>
        roundWidth (r.measure s (effective_text_size r vA) Font.default))
      (fun s =>
        roundWidth (r.measure s (effective_text_size r vA) Font.default))
      (fun a b hab => roundWidth_mono (hmono a b hab))
    rw [List.map_map, List.map_map] at hf
    have e2 : vB.options.map
        ((fun s =>
          roundWidth (r.measure s (effective_text_size r vA) Font.default))
            ∘ toStr)
        = vB.options.map (optionWidth r toStr vB) := by
      simp [Function.comp, optionWidth, hts']
    rwa [e2] at hf
  have hmax : max_width r toStr vA ≤ max_width r toStr vB := by
    simp only [max_width, hAw, hBw]
    exact listMax_getD_le_of_forall₂ hf2
  have hcast : (max_width r toStr vA : ℚ) ≤ (max_width r toStr vB : ℚ) := by
    exact_mod_cast hmax
  simp only [intrinsic_size]
  rw [hts', hpad]
  linarith

/-- C9 witness: labels `["a", "bb"]` vs `["xay", "bbb"]` under the
length-measuring renderer. -/
theorem shrink_monotone_witness :
    (intrinsic_size rLen (fun s : String => s) viewA9).width
      ≤ (intrinsic_size rLen (fun s : String => s) viewB9).width := by
  refine shrink_monotone rLen (fun s => s) viewA9 viewB9 rfl rfl rfl rfl
    ?_ ?_
  · rintro a b ⟨-, hlen⟩
    show (a.length : ℚ) ≤ (b.length : ℚ)
    exact_mod_cast hlen
  · show List.Forall₂ SubstringLe ["a", "bb"] ["xay", "bbb"]
    refine List.Forall₂.cons ⟨⟨"x", "y", by decide⟩, by decide⟩ ?_
    exact List.Forall₂.cons ⟨⟨"", "b", by decide⟩, by decide⟩
      List.Forall₂.nil

/-- C10: the configured font is never consulted during layout (labels are
measured with the renderer default font), so two configurations differing
only in the font field resolve to the same size. -/
theorem layout_ignores_font {T M : Type} (r : Renderer)
    (resolve : Length → ℚ → Size → Size) (toStr : T → String)
    (v : View T M) (f : Font) :
    layout r resolve toStr { v with font := f }
      = layout r resolve toStr v := rfl

end PickList
